import Mathlib

/-!
Verification development for the sb batch media converter.

The definitions below are a shallow embedding of the Go sources:
* path handling (path/filepath Ext, Base, Dir, Clean, Join and
  strings.TrimSuffix) as used by determineOutputPath in
  internal/processors/mov_to_mp4/processor.go;
* the single-file Convert pipeline and the batch orchestration
  ConvertBatch of the same file (filesystem and encoder modelled as
  explicit oracles);
* the worker pool of internal/executor (pool.go) as a labelled
  transition system;
* the result-collection interleavings of ConvertBatch (the shared
  results slice appended to from job closures) as a second, finer
  transition system;
* buildArgs of internal/executor/ffmpeg.go.

Paths are lists of characters with the slash separator (the code runs
on a Unix separator); machine integers that never overflow in the
modelled paths are Nat or Int.  Wall-clock durations are not modelled.
-/

namespace SB

/-! ## Path model (Go path/filepath on the slash separator) -/

/-- Loop of Go filepath.Ext: walk the path backwards (the argument is
the reversed path); stop at a separator; at the first dot return the
suffix of the path from that dot on.  The accumulator holds the
characters already walked over, in forward order. -/
def extLoop : List Char → List Char → List Char
  | [], _ => []
  | c :: rest, acc =>
    if c = '/' then []
    else if c = '.' then c :: acc
    else extLoop rest (c :: acc)

/-- Go filepath.Ext: the suffix beginning at the final dot in the final
slash-separated element; empty if there is no dot. -/
def ext (s : List Char) : List Char := extLoop s.reverse []

/-- Strip trailing separators (first step of Go filepath.Base). -/
def stripTrailingSep (s : List Char) : List Char :=
  (s.reverse.dropWhile (fun c => c == '/')).reverse

/-- The characters after the last separator (second step of Go
filepath.Base). -/
def lastComponent (s : List Char) : List Char :=
  (s.reverse.takeWhile (fun c => c != '/')).reverse

/-- Go filepath.Base: last element of the path after stripping trailing
separators; "." for the empty path, "/" if the path is all separators. -/
def base (s : List Char) : List Char :=
  if s = [] then ['.']
  else
    let s2 := stripTrailingSep s
    let nm := lastComponent s2
    if nm = [] then ['/'] else nm

/-- Backing-up step of Go filepath.Clean for a ".." element: drop the
last element of the output buffer together with the separator before
it, never dropping below position dotdot.  The buffer is kept in
reversed order. -/
def backUp (dotdot : Nat) : List Char → List Char
  | [] => []
  | c :: rest => if rest.length > dotdot ∧ c ≠ '/' then backUp dotdot rest else rest

/-- Main loop of Go filepath.Clean (the Plan 9 algorithm).  The first
list is the unread input, the second the output buffer in reversed
order, dotdot the low-water mark for backing up.  Every iteration of
the Go loop consumes at least one input character, so running it with
fuel at least the input length computes the loop exactly; clean below
passes the input length plus one. -/
def cleanCore (rooted : Bool) : Nat → List Char → List Char → Nat → List Char
  | 0, _, out, _ => out
  | _ + 1, [], out, _ => out
  | fuel + 1, c :: rest, out, dotdot =>
    if c = '/' then
      cleanCore rooted fuel rest out dotdot
    else if c = '.' ∧ (rest = [] ∨ rest.head? = some '/') then
      cleanCore rooted fuel rest out dotdot
    else if c = '.' ∧ rest.head? = some '.' ∧ (rest.tail = [] ∨ rest.tail.head? = some '/') then
      if out.length > dotdot then
        cleanCore rooted fuel rest.tail (backUp dotdot out) dotdot
      else if rooted = false then
        let out2 := if out.length > 0 then '.' :: '.' :: '/' :: out else ['.', '.']
        cleanCore rooted fuel rest.tail out2 out2.length
      else
        cleanCore rooted fuel rest.tail out dotdot
    else
      cleanCore rooted fuel (rest.dropWhile (fun d => d != '/'))
        ((rest.takeWhile (fun d => d != '/')).reverse ++ c ::
          (if (rooted = true ∧ out.length ≠ 1) ∨ (rooted = false ∧ out.length ≠ 0)
            then '/' :: out else out))
        dotdot

/-- Go filepath.Clean. -/
def clean (s : List Char) : List Char :=
  if s = [] then ['.']
  else
    let rooted := s.head? = some '/'
    let out := if rooted then cleanCore true (s.length + 1) s.tail ['/'] 1
      else cleanCore false (s.length + 1) s [] 0
    if out = [] then ['.'] else out.reverse

/-- Go filepath.Join on two elements: skip leading empty elements, join
with a separator and Clean. -/
def join2 (a b : List Char) : List Char :=
  if a = [] then (if b = [] then [] else clean b)
  else clean (a ++ '/' :: b)

/-- Go filepath.Dir: everything up to and including the final
separator, Cleaned. -/
def dir (s : List Char) : List Char :=
  clean (s.reverse.dropWhile (fun c => c != '/')).reverse

/-- Go strings.TrimSuffix. -/
def trimSuffix (s suffix : List Char) : List Char :=
  if suffix.isSuffixOf s then s.take (s.length - suffix.length) else s

/-! ## converter.Options and determineOutputPath -/

/-- Model of converter.Options (internal/converter/types.go); the
Input/Output and Context fields are not consulted by the modelled
code paths and are omitted. -/
structure COptions where
  OutputDir : List Char
  Workers : Int
  SkipExisting : Bool
  DryRun : Bool
  Verbose : Bool
  FlatStructure : Bool
  ShowProgress : Bool
deriving DecidableEq

/-- MP4Converter.OutputExtension. -/
def OutputExtension : List Char := ".mp4".toList

/-- MP4Converter.determineOutputPath
(internal/processors/mov_to_mp4/processor.go lines 277-296). -/
def determineOutputPath (input : List Char) (opts : COptions) : List Char :=
  let baseName := trimSuffix (base input) (ext input)
  let outputName := baseName ++ OutputExtension
  if opts.OutputDir ≠ [] then
    if opts.FlatStructure then
      join2 opts.OutputDir outputName
    else
      join2 opts.OutputDir outputName
  else
    join2 (dir input) outputName

/-- The extension-replacement operation named by the specification:
the name with its own extension replaced by the new one. -/
def replaceExtension (name newExt : List Char) : List Char :=
  trimSuffix name (ext name) ++ newExt

/-- The output-path rule as worded by the specification: outputDir
empty places the file beside the input (directory of the input joined
with the input's base name carrying the new extension); outputDir set
joins outputDir with that name, for flat and preserve modes alike. -/
def specResolvedPath (input : List Char) (opts : COptions) : List Char :=
  let name := replaceExtension (base input) OutputExtension
  if opts.OutputDir = [] then join2 (dir input) name
  else join2 opts.OutputDir name

/-! ## Single-file Convert (MP4Converter.Convert) -/

/-- Model of converter.Result (internal/converter/types.go).  The
Duration field records wall-clock time and is not modelled; Error is
an Option over an error taxonomy. -/
inductive ConvErr
  | cannotAccess
  | isDirectory
  | unsupportedFormat
  | ffmpegNotFound
  | mkdirFailed
  | conversionFailed
deriving DecidableEq

/-- Model of converter.Result. -/
structure CResult where
  Input : List Char
  Output : List Char
  Success : Bool
  Error : Option ConvErr
  InputSize : Int
  OutputSize : Int
  Skipped : Bool
  SkipReason : List Char
deriving DecidableEq

/-- One filesystem entry as seen through os.Stat. -/
structure FSEntry where
  path : List Char
  isDir : Bool
  size : Int
deriving DecidableEq

/-- os.Stat over the modelled filesystem: the first entry with the
given path, none when the path does not resolve. -/
def statFS (fs : List FSEntry) (p : List Char) : Option FSEntry :=
  fs.find? (fun e => e.path == p)

/-- MP4Converter.SupportedInputs. -/
def SupportedInputs : List (List Char) :=
  [".mov", ".avi", ".mkv", ".flv", ".wmv", ".m4v", ".mpeg", ".mpg", ".webm"].map String.toList

/-- MP4Converter.Validate: stat the input, reject directories, then
require a supported (lower-cased) extension. -/
def Validate (fs : List FSEntry) (input : List Char) : Option ConvErr :=
  match statFS fs input with
  | none => some .cannotAccess
  | some info =>
    if info.isDir then some .isDirectory
    else if SupportedInputs.contains ((ext input).map Char.toLower) then none
    else some .unsupportedFormat

/-- The environment a single Convert call runs against: the filesystem
snapshot, whether exec.LookPath finds the encoder binary, whether
os.MkdirAll succeeds, whether the encoder invocation fails, and the
size os.Stat reports for the written output. -/
structure Env where
  fs : List FSEntry
  ffmpegFound : Bool
  mkdirOk : Bool
  encodeErr : Bool
  encodedSize : Int
deriving DecidableEq

/-- Everything observable about one Convert call: the Result, the
returned error, whether the external encoder was invoked, whether any
filesystem-mutating call (os.MkdirAll or the encoder) was reached, and
whether the converter holds a cached encoder wrapper afterwards. -/
structure ConvertOut where
  result : CResult
  err : Option ConvErr
  encoderInvoked : Bool
  fsWrite : Bool
  cacheAfter : Bool
deriving DecidableEq

/-- MP4Converter.Convert (processor.go lines 84-186), in source order:
validate; lazily construct the encoder wrapper (failure short-circuits
to a failed Result); resolve the output path; skip-existing check;
record the input size; dry-run short-circuit; create the output
directory; invoke the encoder; record the output size. -/
def Convert (env : Env) (cached : Bool) (input : List Char) (opts : COptions) : ConvertOut :=
  match Validate env.fs input with
  | some e => ⟨⟨input, [], false, some e, 0, 0, false, []⟩, some e, false, false, cached⟩
  | none =>
    if cached = false ∧ env.ffmpegFound = false then
      ⟨⟨input, [], false, some .ffmpegNotFound, 0, 0, false, []⟩,
        some .ffmpegNotFound, false, false, false⟩
    else
      let output := determineOutputPath input opts
      if opts.SkipExisting ∧ (statFS env.fs output).isSome then
        ⟨⟨input, output, false, none, 0, 0, true, "file already exists".toList⟩,
          none, false, false, true⟩
      else
        let inSize := match statFS env.fs input with
          | some i => i.size
          | none => 0
        if opts.DryRun then
          ⟨⟨input, output, true, none, inSize, 0, false, []⟩, none, false, false, true⟩
        else if env.mkdirOk = false then
          ⟨⟨input, output, false, some .mkdirFailed, inSize, 0, false, []⟩,
            some .mkdirFailed, false, true, true⟩
        else if env.encodeErr then
          ⟨⟨input, output, false, some .conversionFailed, inSize, 0, false, []⟩,
            some .conversionFailed, true, true, true⟩
        else
          ⟨⟨input, output, true, none, inSize, env.encodedSize, false, []⟩,
            none, true, true, true⟩

/-! ## ConvertBatch orchestration, serialized view

ConvertBatch (processor.go lines 189-265) submits one job per input to
the pool; each job runs Convert, appends the Result to the shared
results slice and returns the error, which the draining loop collects
into the errors list.  The fold below is that orchestration under a
serialized execution of the jobs (the interleaved execution of the
shared slice is modelled separately further down); the encoder-wrapper
cache is threaded through, job errors are counted as the length of the
collected errors list. -/

/-- One job of ConvertBatch executed against the accumulator
(results so far, collected error count, cached wrapper flag). -/
def ConvertBatchStep (env : Env) (opts : COptions)
    (acc : List CResult × Nat × Bool) (input : List Char) : List CResult × Nat × Bool :=
  let o := Convert env acc.2.2 input opts
  (acc.1 ++ [o.result], acc.2.1 + (if o.err.isSome then 1 else 0), o.cacheAfter)

/-- The batch-level error of ConvertBatch: the guard error for an
empty input list, or the aggregate failure count. -/
inductive BatchErr
  | noInput
  | failures (n : Nat)
deriving DecidableEq

/-- MP4Converter.ConvertBatch under serialized job execution: reject
empty input lists; otherwise run every job, and return the collected
results together with a failure-count error when any job returned a
non-nil error. -/
def ConvertBatch (env : Env) (cached : Bool) (inputs : List (List Char)) (opts : COptions) :
    List CResult × Option BatchErr :=
  if inputs = [] then ([], some .noInput)
  else
    let acc := inputs.foldl (ConvertBatchStep env opts) ([], 0, cached)
    if acc.2.1 > 0 then (acc.1, some (.failures acc.2.1)) else (acc.1, none)

/-- The number of jobs of a batch whose Convert call returned a
non-nil error (the length of the errors list the drain loop collects). -/
def jobErrCount (env : Env) (cached : Bool) (inputs : List (List Char)) (opts : COptions) : Nat :=
  (inputs.foldl (ConvertBatchStep env opts) ([], 0, cached)).2.1

/-! ## The worker pool (internal/executor pool.go) as a transition system

A worker runs: receive from the jobs channel (exit the loop when it is
closed and drained); a select with default then checks the pool
context: if cancelled, send ctx.Err() on the results channel and
return; otherwise run the job and send its returned error.  Stop
closes the jobs channel, waits on the WaitGroup, then closes the
results channel.  Jobs are identified by numbers; the value a finished
job sends is abstracted to its identifier (the pool forwards whatever
error the job function returned). -/

/-- The status of one worker goroutine. -/
inductive PW
  | idle
  | holding (j : Nat)
  | running (j : Nat)
  | exited
deriving DecidableEq

/-- A value sent on the results channel: the pool context's
cancellation error, or the error returned by job j. -/
inductive POutcome
  | cancelErr
  | jobReturn (j : Nat)
deriving DecidableEq

/-- Pool state: the jobs channel content, whether close(p.jobs) and
close(p.results) have happened, the context cancellation flag, one
status per worker goroutine, the values sent on the results channel in
order, and how many receives from the jobs channel have completed. -/
structure PState where
  queue : List Nat
  intakeClosed : Bool
  cancelled : Bool
  ws : List PW
  emitted : List POutcome
  resultsClosed : Bool
  dequeued : Nat
deriving DecidableEq

/-- Events of the pool: Submit, Cancel, the two halves of Stop, and
the worker-loop steps (receive a job; take the cancelled branch of the
select; take the default branch and start the job body; finish the job
body and send its error; exit the range loop). -/
inductive PAct
  | submit (j : Nat)
  | cancel
  | closeIntake
  | closeResults
  | deq (w : Nat)
  | obsCancel (w : Nat)
  | startExec (w : Nat)
  | finish (w : Nat)
  | exitWorker (w : Nat)
deriving DecidableEq

/-- Guarded small-step interpreter of one pool event; none when the
event is not enabled in the given state. -/
def stepP : PAct → PState → Option PState
  | .submit j, s =>
    if s.intakeClosed then none
    else some ⟨s.queue ++ [j], s.intakeClosed, s.cancelled, s.ws, s.emitted,
      s.resultsClosed, s.dequeued⟩
  | .cancel, s =>
    some ⟨s.queue, s.intakeClosed, true, s.ws, s.emitted, s.resultsClosed, s.dequeued⟩
  | .closeIntake, s =>
    if s.intakeClosed then none
    else some ⟨s.queue, true, s.cancelled, s.ws, s.emitted, s.resultsClosed, s.dequeued⟩
  | .closeResults, s =>
    if s.intakeClosed ∧ s.ws.all (fun w => w == .exited) ∧ s.resultsClosed = false then
      some ⟨s.queue, s.intakeClosed, s.cancelled, s.ws, s.emitted, true, s.dequeued⟩
    else none
  | .deq w, s =>
    match s.ws.get? w, s.queue with
    | some .idle, j :: rest =>
      some ⟨rest, s.intakeClosed, s.cancelled, s.ws.set w (.holding j), s.emitted,
        s.resultsClosed, s.dequeued + 1⟩
    | _, _ => none
  | .obsCancel w, s =>
    match s.ws.get? w with
    | some (.holding _) =>
      if s.cancelled then
        some ⟨s.queue, s.intakeClosed, s.cancelled, s.ws.set w .exited,
          s.emitted ++ [.cancelErr], s.resultsClosed, s.dequeued⟩
      else none
    | _ => none
  | .startExec w, s =>
    match s.ws.get? w with
    | some (.holding j) =>
      if s.cancelled then none
      else some ⟨s.queue, s.intakeClosed, s.cancelled, s.ws.set w (.running j),
        s.emitted, s.resultsClosed, s.dequeued⟩
    | _ => none
  | .finish w, s =>
    match s.ws.get? w with
    | some (.running j) =>
      some ⟨s.queue, s.intakeClosed, s.cancelled, s.ws.set w .idle,
        s.emitted ++ [.jobReturn j], s.resultsClosed, s.dequeued⟩
    | _ => none
  | .exitWorker w, s =>
    match s.ws.get? w with
    | some .idle =>
      if s.intakeClosed ∧ s.queue = [] then
        some ⟨s.queue, s.intakeClosed, s.cancelled, s.ws.set w .exited,
          s.emitted, s.resultsClosed, s.dequeued⟩
      else none
    | _ => none

/-- The state right after Start has returned on a pool of n workers:
Start spawned n goroutines, each inside the range loop. -/
def initP (n : Nat) : PState :=
  ⟨[], false, false, List.replicate n .idle, [], false, 0⟩

/-- Run a list of pool events from a state; none when some event was
not enabled. -/
def runP (s : PState) : List PAct → Option PState
  | [] => some s
  | a :: acts =>
    match stepP a s with
    | none => none
    | some s2 => runP s2 acts

/-- A worker that has received a job whose outcome it has not yet
sent. -/
def inFlightPred : PW → Bool := fun w =>
  match w with
  | .holding _ => true
  | .running _ => true
  | _ => false

/-- Number of workers that have received a job whose outcome they have
not yet sent. -/
def inFlightP (s : PState) : Nat := s.ws.countP inFlightPred

/-- All workers have exited. -/
def allExitedP (s : PState) : Bool :=
  s.ws.all (fun w => w == .exited)

/-! ## ConvertBatch result collection as an interleaved system

ConvertBatch appends to the shared results slice from inside the job
closures, which execute on the pool's worker goroutines; the slice is
preallocated with capacity len(inputs), so one append is a read of the
slice header followed by a write of the element and of the extended
header.  Two workers may interleave those halves; the later header
write makes the buffer equal to its own snapshot extended by its own
element.  Jobs are numbered by input position; handoff models the
rendezvous of the unbuffered jobs channel with a worker's receive. -/

/-- Status of a worker in the result-collection system: idle, holding
a received job whose body has not reached the append, mid-append with
the snapshot of the slice it read, or exited. -/
inductive BW
  | idle
  | exec (j : Nat)
  | appending (j : Nat) (snap : List Nat)
  | exited
deriving DecidableEq

/-- State of the result-collection system: inputs not yet handed to a
worker, whether Stop has closed the jobs channel, worker statuses, and
the shared results slice (job numbers stand for the appended Result
records). -/
structure BState where
  toSubmit : List Nat
  intakeClosed : Bool
  ws : List BW
  buf : List Nat
deriving DecidableEq

/-- Events: rendezvous of Submit with a worker receive, Stop closing
the channel after the last Submit, the read half of the append, the
write half of the append (finishing the job), and worker exit. -/
inductive BAct
  | handoff (w : Nat)
  | closeIntake
  | readBuf (w : Nat)
  | writeBuf (w : Nat)
  | exitWorker (w : Nat)
deriving DecidableEq

/-- Guarded small-step interpreter of one result-collection event. -/
def stepB : BAct → BState → Option BState
  | .handoff w, s =>
    match s.ws.get? w, s.toSubmit with
    | some .idle, j :: rest =>
      if s.intakeClosed then none
      else some ⟨rest, s.intakeClosed, s.ws.set w (.exec j), s.buf⟩
    | _, _ => none
  | .closeIntake, s =>
    if s.toSubmit = [] ∧ s.intakeClosed = false then some ⟨[], true, s.ws, s.buf⟩
    else none
  | .readBuf w, s =>
    match s.ws.get? w with
    | some (.exec j) => some ⟨s.toSubmit, s.intakeClosed, s.ws.set w (.appending j s.buf), s.buf⟩
    | _ => none
  | .writeBuf w, s =>
    match s.ws.get? w with
    | some (.appending j snap) =>
      some ⟨s.toSubmit, s.intakeClosed, s.ws.set w .idle, snap ++ [j]⟩
    | _ => none
  | .exitWorker w, s =>
    match s.ws.get? w with
    | some .idle => if s.intakeClosed then some ⟨s.toSubmit, s.intakeClosed, s.ws.set w .exited, s.buf⟩ else none
    | _ => none

/-- Start of a batch over the given inputs with n pool workers. -/
def initB (inputs : List Nat) (n : Nat) : BState :=
  ⟨inputs, false, List.replicate n .idle, []⟩

/-- Run a list of result-collection events. -/
def runB (s : BState) : List BAct → Option BState
  | [] => some s
  | a :: acts =>
    match stepB a s with
    | none => none
    | some s2 => runB s2 acts

/-- Number of workers simultaneously inside the unsynchronized append
to the shared results slice. -/
def appendingCount (s : BState) : Nat :=
  s.ws.countP (fun w => match w with
    | .appending _ _ => true
    | _ => false)

/-! ## buildArgs (internal/executor/ffmpeg.go) -/

/-- Model of executor.FFmpegOptions. -/
structure FFOptions where
  VideoCodec : String
  CRF : Int
  Preset : String
  Bitrate : String
  AudioCodec : String
  AudioBitrate : String
  HWAccel : String
  HWAccelDevice : String
  ExtraArgs : List String
  Verbose : Bool

/-- pat starts the list s character by character. -/
def startsWith : List Char → List Char → Bool
  | _, [] => true
  | [], _ :: _ => false
  | c :: s, p :: ps => c == p && startsWith s ps

/-- Go strings.Contains: pat occurs as a contiguous run of s. -/
def hasSub (s pat : List Char) : Bool :=
  match s with
  | [] => pat = []
  | _ :: rest => startsWith s pat || hasSub rest pat

/-- FFmpeg.buildArgs (ffmpeg.go lines 113-186): the argument list for
one encoder invocation, starting with the overwrite flag, then
hardware acceleration, input, video codec (with the videotoolbox
mapping), quality, preset, bitrate, audio settings, extra arguments
and the output path. -/
def buildArgs (input output : String) (opts : FFOptions) : List String :=
  let args : List String := ["-y"]
  let args := if opts.HWAccel ≠ "" then
      args ++ ["-hwaccel", opts.HWAccel] ++
        (if opts.HWAccelDevice ≠ "" then ["-hwaccel_device", opts.HWAccelDevice] else [])
    else args
  let args := args ++ ["-i", input]
  let args := if opts.VideoCodec ≠ "" then
      let codec := if opts.HWAccel = "videotoolbox" then
          (if opts.VideoCodec = "h264" then "h264_videotoolbox"
           else if opts.VideoCodec = "h265" ∨ opts.VideoCodec = "hevc" then "hevc_videotoolbox"
           else opts.VideoCodec)
        else opts.VideoCodec
      args ++ ["-c:v", codec]
    else args ++ ["-c:v", "libx264"]
  let args := if opts.CRF > 0 then
      (if hasSub opts.VideoCodec.toList "videotoolbox".toList = false then
        args ++ ["-crf", toString opts.CRF]
      else args ++ ["-q:v", toString opts.CRF])
    else args
  let args := if opts.Preset ≠ "" ∧ hasSub opts.VideoCodec.toList "videotoolbox".toList = false then
      args ++ ["-preset", opts.Preset]
    else args
  let args := if opts.Bitrate ≠ "" then args ++ ["-b:v", opts.Bitrate] else args
  let args := if opts.AudioCodec ≠ "" then args ++ ["-c:a", opts.AudioCodec]
    else args ++ ["-c:a", "aac"]
  let args := if opts.AudioBitrate ≠ "" then args ++ ["-b:a", opts.AudioBitrate] else args
  let args := if opts.ExtraArgs.length > 0 then args ++ opts.ExtraArgs else args
  args ++ [output]

/-! ## Theorems -/

theorem head_append_keep (l t : List String) (h : l.head? = some "-y") :
    (l ++ t).head? = some "-y" := by
  cases l with
  | nil => simp at h
  | cons a r => simp at h; simp [h]

theorem head_ite_keep (c : Prop) (inst : Decidable c) (a b : List String)
    (ha : a.head? = some "-y") (hb : b.head? = some "-y") :
    (if c then a else b).head? = some "-y" := by
  by_cases h : c
  · simp only [if_pos h]; exact ha
  · simp only [if_neg h]; exact hb

/-- Claim C10: the argument list buildArgs constructs for the external
encoder always begins with the overwrite flag, so an existing file at
the output path is overwritten silently (the flag suppresses the
tool's overwrite prompt) whenever the encoder is invoked, which with
skip-existing disabled includes outputs that already exist. -/
theorem buildArgs_starts_with_overwrite_flag (input output : String) (opts : FFOptions) :
    (buildArgs input output opts).head? = some "-y" := by
  unfold buildArgs
  repeat' first
    | rfl
    | apply head_append_keep
    | apply head_ite_keep

theorem extLoop_takeWhile (l : List Char) : ∀ acc,
    extLoop (l.takeWhile (fun c => c != '/')) acc = extLoop l acc := by
  induction l with
  | nil => intro acc; rfl
  | cons c t ih =>
    intro acc
    by_cases hc : c = '/'
    · subst hc
      simp [List.takeWhile_cons, extLoop]
    · have hb : (c != '/') = true := by simp [hc]
      rw [List.takeWhile_cons]
      simp only [hb, if_true]
      by_cases hd : c = '.'
      · simp [extLoop, hc, hd]
      · simp only [extLoop, if_neg hc, if_neg hd]
        exact ih _

theorem base_no_trailing_sep (s : List Char) (h1 : s ≠ []) (h2 : s.getLast? ≠ some '/') :
    base s = (s.reverse.takeWhile (fun c => c != '/')).reverse := by
  obtain ⟨c, t, hrev⟩ : ∃ c t, s.reverse = c :: t := by
    cases hs : s.reverse with
    | nil => exact absurd (by simpa using congrArg List.reverse hs) h1
    | cons c t => exact ⟨c, t, rfl⟩
  have hcl : c ≠ '/' := by
    intro hc
    apply h2
    rw [← List.head?_reverse, hrev, hc]
    rfl
  have hstrip : stripTrailingSep s = s := by
    unfold stripTrailingSep
    rw [hrev, List.dropWhile_cons]
    simp only [beq_iff_eq, hcl, if_false]
    rw [← hrev, List.reverse_reverse]
  have hne : (s.reverse.takeWhile (fun c => c != '/')).reverse ≠ [] := by
    rw [hrev, List.takeWhile_cons]
    simp [hcl]
  unfold base
  rw [if_neg h1]
  simp only [hstrip]
  unfold lastComponent
  rw [if_neg hne]

theorem ext_base_eq (s : List Char) (h1 : s ≠ []) (h2 : s.getLast? ≠ some '/') :
    ext (base s) = ext s := by
  rw [base_no_trailing_sep s h1 h2]
  unfold ext
  rw [List.reverse_reverse]
  exact extLoop_takeWhile _ _

/-- Claim C5 (amended): for every options snapshot and every input
path that is non-empty and does not end in a separator (the only paths
that survive validation, which rejects directories), the resolved
output path follows the specified rule: outputDir empty places the
output beside the input under the input's base name with its extension
replaced by ".mp4"; outputDir set joins outputDir with that name; and
the flat-structure and preserve-structure modes produce the identical
path. -/
theorem determineOutputPath_follows_spec_rule (input : List Char) (opts : COptions)
    (h1 : input ≠ []) (h2 : input.getLast? ≠ some '/') :
    determineOutputPath input opts = specResolvedPath input opts ∧
    (∀ od w se dr v sp,
      determineOutputPath input ⟨od, w, se, dr, v, true, sp⟩ =
      determineOutputPath input ⟨od, w, se, dr, v, false, sp⟩) := by
  constructor
  · unfold determineOutputPath specResolvedPath replaceExtension
    rw [ext_base_eq input h1 h2]
    by_cases h : opts.OutputDir = []
    · simp [h]
    · simp only [h, if_neg, ite_not]
      split <;> simp [h]
  · intro od w se dr v sp
    unfold determineOutputPath
    by_cases h : od = [] <;> simp [h]

/-- Claim C5 counterexample: for the input path "x.mov/" (which ends
in a separator) the code keeps the full base name "x.mov" and merely
appends ".mp4", while the specified rule replaces the base name's
".mov" extension; the two disagree, so the rule does not hold for
every input path. -/
theorem determineOutputPath_spec_rule_fails_on_trailing_sep :
    determineOutputPath "x.mov/".toList ⟨[], 4, false, false, false, false, false⟩ ≠
    specResolvedPath "x.mov/".toList ⟨[], 4, false, false, false, false, false⟩ := by
  decide

/-- Witness for the amended claim C5 at the concrete input
"/videos/clip.mov" with an empty outputDir. -/
theorem determineOutputPath_follows_spec_rule_witness :
    ("/videos/clip.mov".toList ≠ ([] : List Char)) ∧
    ("/videos/clip.mov".toList.getLast? ≠ some '/') ∧
    (determineOutputPath "/videos/clip.mov".toList ⟨[], 4, false, false, false, false, false⟩ =
      specResolvedPath "/videos/clip.mov".toList ⟨[], 4, false, false, false, false, false⟩ ∧
    (∀ od w se dr v sp,
      determineOutputPath "/videos/clip.mov".toList ⟨od, w, se, dr, v, true, sp⟩ =
      determineOutputPath "/videos/clip.mov".toList ⟨od, w, se, dr, v, false, sp⟩)) :=
  ⟨by decide, by decide,
    determineOutputPath_follows_spec_rule "/videos/clip.mov".toList
      ⟨[], 4, false, false, false, false, false⟩ (by decide) (by decide)⟩

/-- A concrete filesystem: one valid input beside an already-existing
output. -/
def fs0 : List FSEntry := [⟨"/a/x.mov".toList, false, 100⟩, ⟨"/a/x.mp4".toList, false, 50⟩]

/-- Environment with the encoder binary present. -/
def envOk : Env := ⟨fs0, true, true, false, 42⟩

/-- Environment with the encoder binary absent from PATH. -/
def envNoFF : Env := ⟨fs0, false, true, false, 42⟩

/-- Options with skip-existing enabled. -/
def optsSkip : COptions := ⟨[], 4, true, false, false, false, false⟩

/-- Options with dry-run enabled. -/
def optsDry : COptions := ⟨[], 4, false, true, false, false, false⟩

/-- Options with both skip-existing and dry-run enabled. -/
def optsDrySkip : COptions := ⟨[], 4, true, true, false, false, false⟩

/-- Claim C6 (amended): for every validated input whose resolved
output path exists while skip-existing is enabled, provided the
converter already caches an encoder wrapper or the encoder binary is
found on PATH (wrapper construction precedes the skip check in the
code), Convert returns a skipped Result with a non-empty reason and
the encoder is never invoked. -/
theorem convert_skip_existing_skips (env : Env) (cached : Bool) (input : List Char)
    (opts : COptions)
    (hv : Validate env.fs input = none)
    (hff : cached = true ∨ env.ffmpegFound = true)
    (hse : opts.SkipExisting = true)
    (hex : (statFS env.fs (determineOutputPath input opts)).isSome = true) :
    (Convert env cached input opts).result.Skipped = true ∧
    (Convert env cached input opts).result.SkipReason ≠ [] ∧
    (Convert env cached input opts).encoderInvoked = false := by
  have hc : ¬(cached = false ∧ env.ffmpegFound = false) := by
    rcases hff with h | h <;> simp [h]
  unfold Convert
  simp only [hv, if_neg hc, hse, hex, and_self, if_true, true_and]
  decide

/-- Claim C6 counterexample: with the encoder binary absent (and no
cached wrapper), a validated input whose output already exists under
skip-existing produces a failed Result carrying the wrapper
construction error, not a skipped one — the wrapper is constructed
before the skip check. -/
theorem convert_skip_existing_fails_without_encoder :
    Validate envNoFF.fs "/a/x.mov".toList = none ∧
    optsSkip.SkipExisting = true ∧
    (statFS envNoFF.fs (determineOutputPath "/a/x.mov".toList optsSkip)).isSome = true ∧
    (Convert envNoFF false "/a/x.mov".toList optsSkip).result.Skipped = false ∧
    (Convert envNoFF false "/a/x.mov".toList optsSkip).result.Error =
      some ConvErr.ffmpegNotFound := by
  decide

/-- Witness for the amended claim C6 at a concrete validated input
with the output already present and the encoder binary available. -/
theorem convert_skip_existing_skips_witness :
    Validate envOk.fs "/a/x.mov".toList = none ∧
    ((false = true) ∨ envOk.ffmpegFound = true) ∧
    optsSkip.SkipExisting = true ∧
    (statFS envOk.fs (determineOutputPath "/a/x.mov".toList optsSkip)).isSome = true ∧
    ((Convert envOk false "/a/x.mov".toList optsSkip).result.Skipped = true ∧
     (Convert envOk false "/a/x.mov".toList optsSkip).result.SkipReason ≠ [] ∧
     (Convert envOk false "/a/x.mov".toList optsSkip).encoderInvoked = false) :=
  ⟨by decide, by decide, by decide, by decide,
    convert_skip_existing_skips envOk false "/a/x.mov".toList optsSkip
      (by decide) (by decide) (by decide) (by decide)⟩

/-- Claim C7 (amended): with dry-run enabled Convert reaches no
filesystem-mutating call and never invokes the encoder, for every
input; and every input that passes validation yields a successful
Result provided the encoder wrapper is available (cached or found on
PATH) and the skip-existing short-circuit does not fire first — both
of those short-circuits precede the dry-run branch in the code and
produce non-successful Results. -/
theorem convert_dry_run_no_write (env : Env) (cached : Bool) (input : List Char)
    (opts : COptions) (hd : opts.DryRun = true) :
    ((Convert env cached input opts).fsWrite = false ∧
     (Convert env cached input opts).encoderInvoked = false) ∧
    (Validate env.fs input = none →
     (cached = true ∨ env.ffmpegFound = true) →
     ¬(opts.SkipExisting = true ∧
        (statFS env.fs (determineOutputPath input opts)).isSome = true) →
     (Convert env cached input opts).result.Success = true) := by
  unfold Convert
  cases hv : Validate env.fs input with
  | some e => simp [hv]
  | none =>
    simp only [hv]
    by_cases hcf : cached = false ∧ env.ffmpegFound = false
    · simp only [if_pos hcf]
      refine ⟨by simp, ?_⟩
      intro _ hff _
      rcases hff with h | h
      · exact absurd h (by simp [hcf.1])
      · exact absurd h (by simp [hcf.2])
    · simp only [if_neg hcf]
      by_cases hsk : opts.SkipExisting = true ∧
          (statFS env.fs (determineOutputPath input opts)).isSome = true
      · simp only [if_pos hsk]
        refine ⟨by simp, ?_⟩
        intro _ _ hnse
        exact absurd hsk hnse
      · simp [hsk, hd]

/-- Claim C7 counterexample: a validated input run with dry-run
enabled whose output already exists under skip-existing yields a
skipped, non-successful Result, so dry-run does not mark every
validated input successful. -/
theorem convert_dry_run_not_always_success :
    Validate envOk.fs "/a/x.mov".toList = none ∧
    optsDrySkip.DryRun = true ∧
    (Convert envOk false "/a/x.mov".toList optsDrySkip).result.Success = false ∧
    (Convert envOk false "/a/x.mov".toList optsDrySkip).result.Skipped = true := by
  decide

/-- Witness for the amended claim C7 at a concrete validated input
with dry-run enabled and skip-existing disabled. -/
theorem convert_dry_run_no_write_witness :
    optsDry.DryRun = true ∧
    (((Convert envOk false "/a/x.mov".toList optsDry).fsWrite = false ∧
      (Convert envOk false "/a/x.mov".toList optsDry).encoderInvoked = false) ∧
     (Validate envOk.fs "/a/x.mov".toList = none →
      (false = true ∨ envOk.ffmpegFound = true) →
      ¬(optsDry.SkipExisting = true ∧
         (statFS envOk.fs (determineOutputPath "/a/x.mov".toList optsDry)).isSome = true) →
      (Convert envOk false "/a/x.mov".toList optsDry).result.Success = true)) :=
  ⟨by decide, convert_dry_run_no_write envOk false "/a/x.mov".toList optsDry (by decide)⟩

theorem batch_foldl_length (env : Env) (opts : COptions) (inputs : List (List Char)) :
    ∀ acc : List CResult × Nat × Bool,
      ((inputs.foldl (ConvertBatchStep env opts) acc).1).length =
        acc.1.length + inputs.length := by
  induction inputs with
  | nil => intro acc; simp
  | cons i rest ih =>
    intro acc
    rw [List.foldl_cons, ih]
    simp [ConvertBatchStep]
    omega

/-- Claim C4 (amended): for every NON-empty input list, ConvertBatch
returns a non-nil aggregate error exactly when some job reported a
non-nil error; the aggregate error carries only the count of failing
jobs; and the accumulated Result list, one Result per input under
serialized job completion, is returned alongside in either case.  The
original claim fails only on the empty input list, where the guard
error is returned with zero failing jobs. -/
theorem convertBatch_error_iff_failures (env : Env) (cached : Bool)
    (inputs : List (List Char)) (opts : COptions) (h : inputs ≠ []) :
    ((ConvertBatch env cached inputs opts).2 ≠ none ↔
      jobErrCount env cached inputs opts ≠ 0) ∧
    (∀ n, (ConvertBatch env cached inputs opts).2 = some (.failures n) →
      n = jobErrCount env cached inputs opts) ∧
    (ConvertBatch env cached inputs opts).1.length = inputs.length := by
  unfold ConvertBatch jobErrCount
  rw [if_neg h]
  by_cases hz : (inputs.foldl (ConvertBatchStep env opts) ([], 0, cached)).2.1 > 0
  · simp only [if_pos hz]
    refine ⟨by simp; omega, ?_, ?_⟩
    · intro n hn
      simp at hn
      omega
    · have := batch_foldl_length env opts inputs ([], 0, cached)
      simpa using this
  · simp only [if_neg hz]
    refine ⟨by simp; omega, ?_, ?_⟩
    · intro n hn
      simp at hn
    · have := batch_foldl_length env opts inputs ([], 0, cached)
      simpa using this

/-- Claim C4 counterexample: on the empty input list ConvertBatch
returns a non-nil error although no job reported a non-nil error
(no job ran at all), so the stated biconditional fails there. -/
theorem convertBatch_empty_list_error :
    (ConvertBatch envOk false [] optsSkip).2 ≠ none ∧
    jobErrCount envOk false [] optsSkip = 0 := by
  decide

/-- Witness for the amended claim C4 on a concrete one-element batch
whose single job fails validation (the input is absent from the
filesystem). -/
theorem convertBatch_error_iff_failures_witness :
    (["/missing.mov".toList] ≠ ([] : List (List Char))) ∧
    (((ConvertBatch envOk false ["/missing.mov".toList] optsSkip).2 ≠ none ↔
       jobErrCount envOk false ["/missing.mov".toList] optsSkip ≠ 0) ∧
     (∀ n, (ConvertBatch envOk false ["/missing.mov".toList] optsSkip).2 =
        some (.failures n) →
       n = jobErrCount envOk false ["/missing.mov".toList] optsSkip) ∧
     (ConvertBatch envOk false ["/missing.mov".toList] optsSkip).1.length =
       ["/missing.mov".toList].length) :=
  ⟨by decide,
    convertBatch_error_iff_failures envOk false ["/missing.mov".toList] optsSkip (by decide)⟩

theorem countP_set_balance {α : Type} (p : α → Bool) (l : List α) :
    ∀ (w : Nat) (x v : α), l.get? w = some x →
      (l.set w v).countP p + (if p x then 1 else 0) =
        l.countP p + (if p v then 1 else 0) := by
  induction l with
  | nil => intro w x v h; simp at h
  | cons a t ih =>
    intro w x v h
    cases w with
    | zero =>
      have hax : a = x := by simpa using h
      subst hax
      show ((v :: t).countP p) + _ = _
      rw [List.countP_cons, List.countP_cons]
      cases hpv : p v <;> cases hpa : p a <;> simp [hpv, hpa] <;> omega
    | succ w2 =>
      have ht : t.get? w2 = some x := by simpa using h
      show ((a :: t.set w2 v).countP p) + _ = _
      rw [List.countP_cons, List.countP_cons]
      have := ih w2 x v ht
      cases hpx : p x <;> cases hpv : p v <;> cases hpa : p a <;>
        simp [hpx, hpv, hpa] at this ⊢ <;> omega

theorem all_exited_absurd (l : List PW) (w : Nat) (x : PW)
    (hx : l.get? w = some x) (hne : x ≠ PW.exited)
    (hall : l.all (fun y => y == PW.exited) = true) : False := by
  have hmem := List.get?_mem hx
  have h2 := List.all_eq_true.mp hall _ hmem
  simp only [beq_iff_eq] at h2
  exact hne h2

theorem countP_inflight_zero_of_all_exited (l : List PW)
    (hall : l.all (fun y => y == PW.exited) = true) :
    l.countP inFlightPred = 0 := by
  induction l with
  | nil => rfl
  | cons a t ih =>
    simp only [List.all_cons, Bool.and_eq_true, beq_iff_eq] at hall
    rw [List.countP_cons, ih hall.2, hall.1]
    rfl

theorem countP_inflight_replicate_idle (n : Nat) :
    (List.replicate n PW.idle).countP inFlightPred = 0 := by
  induction n with
  | zero => rfl
  | succ k ih =>
    rw [List.replicate_succ, List.countP_cons, ih]
    rfl

/-- The C2 invariant: one outcome is emitted per completed dequeue,
dequeues in flight are the difference; and the results channel is
closed only with every worker exited. -/
def InvA (s : PState) : Prop :=
  s.emitted.length + inFlightP s = s.dequeued ∧
  (s.resultsClosed = true → allExitedP s = true)

theorem stepP_invA (a : PAct) (s s2 : PState) (h : stepP a s = some s2)
    (hi : InvA s) : InvA s2 := by
  obtain ⟨hi1, hi2⟩ := hi
  cases a with
  | submit j =>
    simp only [stepP] at h
    split at h
    · exact absurd h (by simp)
    · injection h with h2
      subst h2
      exact ⟨hi1, hi2⟩
  | cancel =>
    simp only [stepP] at h
    injection h with h2
    subst h2
    exact ⟨hi1, hi2⟩
  | closeIntake =>
    simp only [stepP] at h
    split at h
    · exact absurd h (by simp)
    · injection h with h2
      subst h2
      exact ⟨hi1, hi2⟩
  | closeResults =>
    simp only [stepP] at h
    split at h
    case isTrue hg =>
      injection h with h2
      subst h2
      exact ⟨hi1, fun _ => hg.2.1⟩
    case isFalse => exact absurd h (by simp)
  | deq w =>
    simp only [stepP] at h
    split at h
    case h_1 j rest heq hq =>
      injection h with h2
      subst h2
      have hc := countP_set_balance inFlightPred s.ws w PW.idle (PW.holding j) heq
      constructor
      · show s.emitted.length + (s.ws.set w (PW.holding j)).countP inFlightPred = s.dequeued + 1
        unfold inFlightP at hi1
        simp [inFlightPred] at hc
        omega
      · intro hrc
        exact absurd (hi2 hrc) (by
          intro hall
          exact all_exited_absurd s.ws w PW.idle heq (by simp) hall)
    case h_2 => exact absurd h (by simp)
  | obsCancel w =>
    simp only [stepP] at h
    split at h
    case h_1 j heq =>
      split at h
      case isTrue hcnd =>
        injection h with h2
        subst h2
        have hc := countP_set_balance inFlightPred s.ws w (PW.holding j) PW.exited heq
        constructor
        · show (s.emitted ++ [POutcome.cancelErr]).length +
            (s.ws.set w PW.exited).countP inFlightPred = s.dequeued
          rw [List.length_append]
          unfold inFlightP at hi1
          simp [inFlightPred] at hc
          simp only [List.length_cons, List.length_nil]
          omega
        · intro hrc
          exact absurd (hi2 hrc) (by
            intro hall
            exact all_exited_absurd s.ws w (PW.holding j) heq (by simp) hall)
      case isFalse => exact absurd h (by simp)
    case h_2 => exact absurd h (by simp)
  | startExec w =>
    simp only [stepP] at h
    split at h
    case h_1 j heq =>
      split at h
      case isTrue => exact absurd h (by simp)
      case isFalse =>
        injection h with h2
        subst h2
        have hc := countP_set_balance inFlightPred s.ws w (PW.holding j) (PW.running j) heq
        constructor
        · show s.emitted.length + (s.ws.set w (PW.running j)).countP inFlightPred = s.dequeued
          unfold inFlightP at hi1
          simp [inFlightPred] at hc
          omega
        · intro hrc
          exact absurd (hi2 hrc) (by
            intro hall
            exact all_exited_absurd s.ws w (PW.holding j) heq (by simp) hall)
    case h_2 => exact absurd h (by simp)
  | finish w =>
    simp only [stepP] at h
    split at h
    case h_1 j heq =>
      injection h with h2
      subst h2
      have hc := countP_set_balance inFlightPred s.ws w (PW.running j) PW.idle heq
      constructor
      · show (s.emitted ++ [POutcome.jobReturn j]).length +
          (s.ws.set w PW.idle).countP inFlightPred = s.dequeued
        rw [List.length_append]
        unfold inFlightP at hi1
        simp [inFlightPred] at hc
        simp only [List.length_cons, List.length_nil]
        omega
      · intro hrc
        exact absurd (hi2 hrc) (by
          intro hall
          exact all_exited_absurd s.ws w (PW.running j) heq (by simp) hall)
    case h_2 => exact absurd h (by simp)
  | exitWorker w =>
    simp only [stepP] at h
    split at h
    case h_1 heq =>
      split at h
      case isTrue hg =>
        injection h with h2
        subst h2
        have hc := countP_set_balance inFlightPred s.ws w PW.idle PW.exited heq
        constructor
        · show s.emitted.length + (s.ws.set w PW.exited).countP inFlightPred = s.dequeued
          unfold inFlightP at hi1
          simp [inFlightPred] at hc
          omega
        · intro hrc
          exact absurd (hi2 hrc) (by
            intro hall
            exact all_exited_absurd s.ws w PW.idle heq (by simp) hall)
      case isFalse => exact absurd h (by simp)
    case h_2 => exact absurd h (by simp)

theorem runP_invA (acts : List PAct) (s0 s : PState)
    (h : runP s0 acts = some s) (hi : InvA s0) : InvA s := by
  induction acts generalizing s0 with
  | nil =>
    simp only [runP] at h
    injection h with h2
    subst h2
    exact hi
  | cons a rest ih =>
    simp only [runP] at h
    cases hs : stepP a s0 with
    | none => rw [hs] at h; exact absurd h (by simp)
    | some s1 =>
      rw [hs] at h
      exact ih s1 h (stepP_invA a s0 s1 hs hi)

/-- Claim C2: along every pool run, the number of emitted results plus
the dequeues still in flight equals the number of completed dequeues —
exactly one value per dequeued job, the cancellation error standing in
for a cancellation-short-circuited one — and when the results channel
has been closed, every spawned worker has exited and the emission
count equals the dequeue count exactly. -/
theorem pool_one_outcome_per_dequeued_job (n : Nat) (acts : List PAct) (s : PState)
    (h : runP (initP n) acts = some s) :
    s.emitted.length + inFlightP s = s.dequeued ∧
    (s.resultsClosed = true →
      allExitedP s = true ∧ s.emitted.length = s.dequeued) := by
  have hinit : InvA (initP n) := by
    refine ⟨?_, ?_⟩
    · show ([] : List POutcome).length + (List.replicate n PW.idle).countP inFlightPred = 0
      rw [countP_inflight_replicate_idle]
      rfl
    · intro hrc
      exact absurd hrc (by simp [initP])
  obtain ⟨h1, h2c⟩ := runP_invA acts (initP n) s h hinit
  refine ⟨h1, fun hrc => ⟨h2c hrc, ?_⟩⟩
  have hz : inFlightP s = 0 := countP_inflight_zero_of_all_exited s.ws (h2c hrc)
  omega

/-- Witness for claim C2 on a concrete one-worker run that dequeues,
executes and emits one job, then stops and closes the results. -/
theorem pool_one_outcome_per_dequeued_job_witness :
    runP (initP 1) [PAct.submit 0, PAct.deq 0, PAct.startExec 0, PAct.finish 0,
        PAct.closeIntake, PAct.exitWorker 0, PAct.closeResults] =
      some (PState.mk [] true false [PW.exited] [POutcome.jobReturn 0] true 1) ∧
    ((PState.mk [] true false [PW.exited] [POutcome.jobReturn 0] true 1).emitted.length +
        inFlightP (PState.mk [] true false [PW.exited] [POutcome.jobReturn 0] true 1) =
      (PState.mk [] true false [PW.exited] [POutcome.jobReturn 0] true 1).dequeued ∧
     ((PState.mk [] true false [PW.exited] [POutcome.jobReturn 0] true 1).resultsClosed = true →
       allExitedP (PState.mk [] true false [PW.exited] [POutcome.jobReturn 0] true 1) = true ∧
       (PState.mk [] true false [PW.exited] [POutcome.jobReturn 0] true 1).emitted.length =
         (PState.mk [] true false [PW.exited] [POutcome.jobReturn 0] true 1).dequeued)) :=
  ⟨by decide,
    pool_one_outcome_per_dequeued_job 1
      [PAct.submit 0, PAct.deq 0, PAct.startExec 0, PAct.finish 0,
        PAct.closeIntake, PAct.exitWorker 0, PAct.closeResults]
      (PState.mk [] true false [PW.exited] [POutcome.jobReturn 0] true 1)
      (by decide)⟩

theorem runP_split (as bs : List PAct) (s0 s : PState)
    (h : runP s0 (as ++ bs) = some s) :
    ∃ m, runP s0 as = some m ∧ runP m bs = some s := by
  induction as generalizing s0 with
  | nil => exact ⟨s0, rfl, h⟩
  | cons a rest ih =>
    rw [List.cons_append] at h
    simp only [runP] at h ⊢
    cases hs : stepP a s0 with
    | none => rw [hs] at h; exact absurd h (by simp)
    | some s1 =>
      rw [hs] at h
      exact ih s1 h

theorem runP_single (a : PAct) (m s : PState) :
    runP m [a] = some s ↔ stepP a m = some s := by
  simp only [runP]
  cases hs : stepP a m <;> simp

theorem stepP_cancel_mono (a : PAct) (s s2 : PState) (h : stepP a s = some s2)
    (hc : s.cancelled = true) : s2.cancelled = true := by
  cases a <;> simp only [stepP] at h <;> (repeat' split at h) <;>
    first
      | (injection h with h2; subst h2; exact hc)
      | (injection h with h2; subst h2; rfl)
      | injection h

theorem runP_cancel_mono (acts : List PAct) (s0 s : PState)
    (h : runP s0 acts = some s) (hc : s0.cancelled = true) : s.cancelled = true := by
  induction acts generalizing s0 with
  | nil =>
    simp only [runP] at h
    injection h with h2
    subst h2
    exact hc
  | cons a rest ih =>
    simp only [runP] at h
    cases hs : stepP a s0 with
    | none => rw [hs] at h; exact absurd h (by simp)
    | some s1 =>
      rw [hs] at h
      exact ih s1 h (stepP_cancel_mono a s0 s1 hs hc)

theorem stepP_startExec_requires (w : Nat) (s s2 : PState)
    (h : stepP (.startExec w) s = some s2) : s.cancelled = false := by
  simp only [stepP] at h
  split at h
  case h_1 j heq =>
    split at h
    case isTrue => exact absurd h (by simp)
    case isFalse hnc => simpa using hnc
  case h_2 => exact absurd h (by simp)

theorem stepP_obsCancel_cancelled (w : Nat) (s s2 : PState)
    (h : stepP (.obsCancel w) s = some s2) : s2.cancelled = true := by
  simp only [stepP] at h
  split at h
  case h_1 j heq =>
    split at h
    case isTrue hcn =>
      injection h with h2
      subst h2
      exact hcn
    case isFalse => exact absurd h (by simp)
  case h_2 => exact absurd h (by simp)

/-- Claim C3: along every pool run, once some worker takes the
cancelled branch of its post-dequeue select (emitting the cancellation
error as that job's outcome and exiting), no job body is started by
any worker at any later point of the run — the cancellation flag is
never lowered and the start-execution step requires it to be unset. -/
theorem pool_no_new_start_after_cancel_observed (n : Nat) (acts : List PAct) (s : PState)
    (h : runP (initP n) acts = some s) (i j w w2 : Nat) (hij : i < j)
    (hi : acts[i]? = some (PAct.obsCancel w)) :
    acts[j]? ≠ some (PAct.startExec w2) := by
  intro hj
  have hsplit1 := (List.take_append_drop (i + 1) acts).symm
  rw [hsplit1] at h
  obtain ⟨s1, h1, h2⟩ := runP_split _ _ _ _ h
  have htk : acts.take (i + 1) = acts.take i ++ [PAct.obsCancel w] := by
    rw [List.take_succ, hi]
    rfl
  rw [htk] at h1
  obtain ⟨s0b, _, hstep⟩ := runP_split _ _ _ _ h1
  rw [runP_single] at hstep
  have hc1 : s1.cancelled = true := stepP_obsCancel_cancelled w s0b s1 hstep
  have hk : (acts.drop (i + 1))[j - (i + 1)]? = some (PAct.startExec w2) := by
    rw [List.getElem?_drop]
    have harith : i + 1 + (j - (i + 1)) = j := by omega
    rw [harith]
    exact hj
  have hsplit2 := (List.take_append_drop (j - (i + 1) + 1) (acts.drop (i + 1))).symm
  rw [hsplit2] at h2
  obtain ⟨s3, h3, _⟩ := runP_split _ _ _ _ h2
  have htk2 : (acts.drop (i + 1)).take (j - (i + 1) + 1)
      = (acts.drop (i + 1)).take (j - (i + 1)) ++ [PAct.startExec w2] := by
    rw [List.take_succ, hk]
    rfl
  rw [htk2] at h3
  obtain ⟨s2b, h2b, hstep2⟩ := runP_split _ _ _ _ h3
  rw [runP_single] at hstep2
  have hc2 : s2b.cancelled = true := runP_cancel_mono _ _ _ h2b hc1
  have hreq := stepP_startExec_requires w2 s2b s3 hstep2
  rw [hreq] at hc2
  exact absurd hc2 (by simp)

/-- Witness for claim C3 on a concrete run: a job is submitted, the
pool is cancelled, a worker dequeues the job and observes
cancellation; no later action of the run starts a job body. -/
theorem pool_no_new_start_after_cancel_witness :
    runP (initP 1) [PAct.submit 0, PAct.cancel, PAct.deq 0, PAct.obsCancel 0] =
      some (PState.mk [] false true [PW.exited] [POutcome.cancelErr] false 1) ∧
    (3 < 4) ∧
    ([PAct.submit 0, PAct.cancel, PAct.deq 0, PAct.obsCancel 0][3]? =
      some (PAct.obsCancel 0)) ∧
    ([PAct.submit 0, PAct.cancel, PAct.deq 0, PAct.obsCancel 0][4]? ≠
      some (PAct.startExec 0)) :=
  ⟨by decide, by decide, by decide,
    pool_no_new_start_after_cancel_observed 1
      [PAct.submit 0, PAct.cancel, PAct.deq 0, PAct.obsCancel 0]
      (PState.mk [] false true [PW.exited] [POutcome.cancelErr] false 1)
      (by decide) 3 4 0 0 (by decide) (by decide)⟩

/-- The C8 invariant: the worker list keeps its spawned size, and
while the pool has never been cancelled a worker can only have exited
with the intake closed and drained. -/
def InvC (n : Nat) (s : PState) : Prop :=
  s.ws.length = n ∧
  (s.cancelled = false → PW.exited ∈ s.ws → s.intakeClosed = true ∧ s.queue = [])

theorem stepP_invC (n : Nat) (a : PAct) (s s2 : PState) (h : stepP a s = some s2)
    (hi : InvC n s) : InvC n s2 := by
  obtain ⟨hl, hq⟩ := hi
  cases a with
  | submit j =>
    simp only [stepP] at h
    split at h
    case isTrue => exact absurd h (by simp)
    case isFalse hni =>
      injection h with h2
      subst h2
      refine ⟨hl, ?_⟩
      intro hnc hmem
      exact absurd (hq hnc hmem).1 hni
  | cancel =>
    simp only [stepP] at h
    injection h with h2
    subst h2
    refine ⟨hl, ?_⟩
    intro hnc
    exact absurd hnc (by simp)
  | closeIntake =>
    simp only [stepP] at h
    split at h
    case isTrue => exact absurd h (by simp)
    case isFalse hni =>
      injection h with h2
      subst h2
      refine ⟨hl, ?_⟩
      intro hnc hmem
      exact absurd (hq hnc hmem).1 hni
  | closeResults =>
    simp only [stepP] at h
    split at h
    case isTrue hg =>
      injection h with h2
      subst h2
      exact ⟨hl, fun hnc hmem => hq hnc hmem⟩
    case isFalse => exact absurd h (by simp)
  | deq w =>
    simp only [stepP] at h
    split at h
    case h_1 j rest heq hqeq =>
      injection h with h2
      subst h2
      refine ⟨by rw [List.length_set]; exact hl, ?_⟩
      intro hnc hmem
      rcases List.mem_or_eq_of_mem_set hmem with hm | he
      · exact absurd (hq hnc hm).2 (by rw [hqeq]; simp)
      · exact absurd he (by simp)
    case h_2 => exact absurd h (by simp)
  | obsCancel w =>
    simp only [stepP] at h
    split at h
    case h_1 j heq =>
      split at h
      case isTrue hcn =>
        injection h with h2
        subst h2
        refine ⟨by rw [List.length_set]; exact hl, ?_⟩
        intro hnc
        have hnc2 : s.cancelled = false := hnc
        rw [hcn] at hnc2
        exact absurd hnc2 (by simp)
      case isFalse => exact absurd h (by simp)
    case h_2 => exact absurd h (by simp)
  | startExec w =>
    simp only [stepP] at h
    split at h
    case h_1 j heq =>
      split at h
      case isTrue => exact absurd h (by simp)
      case isFalse =>
        injection h with h2
        subst h2
        refine ⟨by rw [List.length_set]; exact hl, ?_⟩
        intro hnc hmem
        rcases List.mem_or_eq_of_mem_set hmem with hm | he
        · exact hq hnc hm
        · exact absurd he (by simp)
    case h_2 => exact absurd h (by simp)
  | finish w =>
    simp only [stepP] at h
    split at h
    case h_1 j heq =>
      injection h with h2
      subst h2
      refine ⟨by rw [List.length_set]; exact hl, ?_⟩
      intro hnc hmem
      rcases List.mem_or_eq_of_mem_set hmem with hm | he
      · exact hq hnc hm
      · exact absurd he (by simp)
    case h_2 => exact absurd h (by simp)
  | exitWorker w =>
    simp only [stepP] at h
    split at h
    case h_1 heq =>
      split at h
      case isTrue hg =>
        injection h with h2
        subst h2
        exact ⟨by rw [List.length_set]; exact hl, fun _ _ => ⟨hg.1, hg.2⟩⟩
      case isFalse => exact absurd h (by simp)
    case h_2 => exact absurd h (by simp)

theorem runP_invC (n : Nat) (acts : List PAct) (s0 s : PState)
    (h : runP s0 acts = some s) (hi : InvC n s0) : InvC n s := by
  induction acts generalizing s0 with
  | nil =>
    simp only [runP] at h
    injection h with h2
    subst h2
    exact hi
  | cons a rest ih =>
    simp only [runP] at h
    cases hs : stepP a s0 with
    | none => rw [hs] at h; exact absurd h (by simp)
    | some s1 =>
      rw [hs] at h
      exact ih s1 h (stepP_invC n a s0 s1 hs hi)

/-- Claim C8 (amended): Start spawns exactly workerCount workers and
the worker list keeps that size throughout; and as long as the
cancellation signal has never been raised, no worker exits before the
intake queue is closed and drained.  The original claim's "including
while the cancellation signal is raised" fails: upon cancellation a
worker exits as soon as it dequeues its next job, with the intake
still open. -/
theorem pool_worker_count_stable_unless_cancelled (n : Nat) (acts : List PAct) (s : PState)
    (h : runP (initP n) acts = some s) (hnc : s.cancelled = false) :
    s.ws.length = n ∧ (PW.exited ∈ s.ws → s.intakeClosed = true ∧ s.queue = []) := by
  have hinit : InvC n (initP n) := by
    refine ⟨by simp [initP], ?_⟩
    intro _ hmem
    simp [initP, List.mem_replicate] at hmem
  obtain ⟨h1, h2⟩ := runP_invC n acts (initP n) s h hinit
  exact ⟨h1, h2 hnc⟩

/-- Claim C8 counterexample: with the cancellation signal raised, the
single worker dequeues the pending job, observes cancellation and
exits although the intake channel was never closed — the live-worker
invariant does not survive cancellation. -/
theorem pool_worker_exits_while_intake_open :
    (runP (initP 1) [PAct.submit 5, PAct.cancel, PAct.deq 0, PAct.obsCancel 0]).map
        (fun s => (s.intakeClosed, s.ws.contains PW.exited)) = some (false, true) := by
  decide

/-- Witness for the amended claim C8 on a concrete cancel-free run
that drains one job and exits its worker only after Stop has closed
the intake. -/
theorem pool_worker_count_stable_witness :
    runP (initP 1) [PAct.submit 0, PAct.deq 0, PAct.startExec 0, PAct.finish 0,
        PAct.closeIntake, PAct.exitWorker 0] =
      some (PState.mk [] true false [PW.exited] [POutcome.jobReturn 0] false 1) ∧
    (PState.mk [] true false [PW.exited] [POutcome.jobReturn 0] false 1).cancelled = false ∧
    ((PState.mk [] true false [PW.exited] [POutcome.jobReturn 0] false 1).ws.length = 1 ∧
     (PW.exited ∈ (PState.mk [] true false [PW.exited] [POutcome.jobReturn 0] false 1).ws →
       (PState.mk [] true false [PW.exited] [POutcome.jobReturn 0] false 1).intakeClosed = true ∧
       (PState.mk [] true false [PW.exited] [POutcome.jobReturn 0] false 1).queue = [])) :=
  ⟨by decide, by decide,
    pool_worker_count_stable_unless_cancelled 1
      [PAct.submit 0, PAct.deq 0, PAct.startExec 0, PAct.finish 0,
        PAct.closeIntake, PAct.exitWorker 0]
      (PState.mk [] true false [PW.exited] [POutcome.jobReturn 0] false 1)
      (by decide) (by decide)⟩

/-- Claim C1 evaluation at the failing interleaving: a complete batch
run over two inputs with two workers (both inputs handed off, both
appends executed, both workers exited after the intake closed) in
which the two unsynchronized appends to the shared results slice both
read the empty slice before either writes; the second header write
wins and the returned Result collection has one entry for a batch of
two inputs, so its stats classification sums to 1, not 2. -/
theorem convertBatch_append_race_loses_result :
    (runB (initB [0, 1] 2) [BAct.handoff 0, BAct.handoff 1, BAct.closeIntake,
        BAct.readBuf 0, BAct.readBuf 1, BAct.writeBuf 0, BAct.writeBuf 1,
        BAct.exitWorker 0, BAct.exitWorker 1]).map
        (fun s => (s.buf.length, s.toSubmit.isEmpty, s.intakeClosed,
          s.ws.all (fun w => w == BW.exited))) =
      some (1, true, true, true) ∧
    (initB [0, 1] 2).toSubmit.length = 2 := by
  decide

/-- Claim C9 evaluation at the failing interleaving: a reachable state
of the batch orchestration in which two workers are simultaneously
inside the append to the shared results slice — the appends are
performed by the concurrently executing job closures on the worker
goroutines, not serially by the draining consumer (which only reads
the error channel) and not under any mutex. -/
theorem convertBatch_appends_run_concurrently :
    (runB (initB [0, 1] 2) [BAct.handoff 0, BAct.handoff 1, BAct.closeIntake,
        BAct.readBuf 0, BAct.readBuf 1]).map appendingCount = some 2 := by
  decide

end SB
